import Mathlib

/-!
Verification of the spellbot learning-session engine.

This file gives a shallow embedding of the engine's core operations:
the SM-2 schedule calculator (SQL function `calculate_next_interval` and
the client function `updateSpacedRepetitionProgress`), the session
tables and their triggers (`validate_new_game_session`,
`update_session_stats`, `cleanup_old_sessions`,
`check_word_achievements`), the due-word selection query, the custom
word-list validation of the NewGame form, and the word-advance handler
`handleNextWord` of the GamePlay page.  All numeric fields use exact
arithmetic (ℚ for SQL floats, ℤ for integers and timestamps).
-/

namespace Spellbot

/-! ## SM-2 schedule calculator -/

/-- Review state of one (user, word) pair: columns `easiness_factor`,
`interval`, `repetitions` of `spaced_repetition_progress`. -/
structure SM2State where
  easiness_factor : ℚ
  interval : ℤ
  repetitions : ℕ
deriving DecidableEq

inductive SM2Error where
  | invalidQuality
deriving DecidableEq

/-- The SM-2 easiness-factor update shared by both implementations:
`EF + (0.1 - (5-q) * (0.08 + (5-q) * 0.02))`, clamped below at 1.3. -/
def sm2NewEF (quality : ℤ) (current_ef : ℚ) : ℚ :=
  let next_ef0 : ℚ :=
    current_ef + (1/10 - (5 - (quality : ℚ)) * (8/100 + (5 - (quality : ℚ)) * (2/100)))
  if next_ef0 < 13/10 then 13/10 else next_ef0

/-- SQL function `calculate_next_interval` (migration
"Spaced Repetition Implementation (SM-2 Algorithm)").  Rejects quality
outside [0,5]; computes the new easiness factor first, clamps it at 1.3,
and for quality ≥ 3 derives the next interval from the *new* easiness
factor (`ROUND(current_interval * next_ef)`). -/
def calculate_next_interval (quality : ℤ) (current_ef : ℚ) (current_interval : ℤ)
    (current_repetitions : ℕ) : Except SM2Error SM2State :=
  if quality < 0 ∨ 5 < quality then .error .invalidQuality
  else
    let next_ef : ℚ := sm2NewEF quality current_ef
    if quality < 3 then
      .ok ⟨next_ef, 1, 0⟩
    else
      let next_repetitions := current_repetitions + 1
      let next_interval : ℤ :=
        if next_repetitions = 1 then 1
        else if next_repetitions = 2 then 6
        else round ((current_interval : ℚ) * next_ef)
      .ok ⟨next_ef, next_interval, next_repetitions⟩

/-- Client function `updateSpacedRepetitionProgress` (GamePlay.tsx).
Maps the boolean correctness to quality 5/0, computes the next interval
from the *current* (pre-update) easiness factor, and only afterwards
updates the easiness factor. -/
def updateSpacedRepetitionProgress (isCorrect : Bool) (s : SM2State) : SM2State :=
  let quality : ℤ := if isCorrect then 5 else 0
  let p : ℤ × ℕ :=
    if 3 ≤ quality then
      ( if s.repetitions = 0 then 1
        else if s.repetitions = 1 then 6
        else round ((s.interval : ℚ) * s.easiness_factor),
        s.repetitions + 1 )
    else (1, 0)
  let next_ef : ℚ :=
    max (13/10)
      (s.easiness_factor + (1/10 - (5 - (quality : ℚ)) * (8/100 + (5 - (quality : ℚ)) * (2/100))))
  ⟨next_ef, p.1, p.2⟩

/-! ## Session data model (tables `game_sessions`, `word_attempts`) -/

/-- One row of `game_sessions`.  `completed` defaults to false and
`end_time` to NULL at insertion. -/
structure SessionRow where
  session_id : ℕ
  user_id : ℕ
  game_mode : String
  language : String
  start_time : ℤ
  end_time : Option ℤ
  completed : Bool
  total_words : ℤ
  correct_words : ℤ
  average_response_time : ℚ
  created_at : ℤ
deriving DecidableEq

/-- One row of `word_attempts`.  The table has no uniqueness constraint
on (session_id, word_id); its primary key is `attempt_id`. -/
structure AttemptRow where
  attempt_id : ℕ
  session_id : ℕ
  word_id : ℕ
  user_id : ℕ
  user_input : String
  is_correct : Bool
  response_time_ms : ℤ
  created_at : ℤ
deriving DecidableEq

/-- The durable state the engine mutates: the sessions and attempts
tables. -/
structure DBState where
  sessions : List SessionRow
  attempts : List AttemptRow
deriving DecidableEq

inductive DBError where
  | invalidSession
deriving DecidableEq

/-! ## Session creation (`validate_new_game_session` trigger) -/

/-- The validation part of the `validate_new_game_session` trigger and
the CHECK constraints `check_total_words`, `check_game_mode`,
`check_language` on `game_sessions`: total_words > 0, game_mode in
{custom, spaced-repetition}, language in {en, fr, de}. -/
def validate_session_checks (s : SessionRow) : Bool :=
  (0 < s.total_words)
    && (s.game_mode == "custom" || s.game_mode == "spaced-repetition")
    && (s.language == "en" || s.language == "fr" || s.language == "de")

/-- The auto-complete step of the `validate_new_game_session` trigger
(migration "Improve session validation and error handling"): every
session of the inserting user with `completed = false` is updated to
`completed = true, end_time = NOW()` before the new row is inserted. -/
def completeOpenSessionsFor (uid : ℕ) (now : ℤ) (sessions : List SessionRow) :
    List SessionRow :=
  sessions.map fun s =>
    if s.user_id = uid ∧ s.completed = false
    then { s with completed := true, end_time := some now }
    else s

/-- Inserting a row into `game_sessions`: the BEFORE INSERT trigger
`validate_new_game_session` completes the user's open sessions, then the
row is inserted with the column defaults `completed = false`,
`end_time = NULL`; a row failing the CHECK constraints is rejected and
the whole statement (including the trigger's updates) rolls back. -/
def startSession (st : DBState) (new : SessionRow) (now : ℤ) :
    Except DBError DBState :=
  if validate_session_checks new then
    .ok { st with sessions :=
      completeOpenSessionsFor new.user_id now st.sessions
        ++ [{ new with completed := false, end_time := none }] }
  else .error .invalidSession

/-- The user's sessions with `completed = false`. -/
def openSessionsOf (uid : ℕ) (l : List SessionRow) : List SessionRow :=
  l.filter fun s => s.user_id == uid && s.completed == false

/-! ## Attempt recording (`update_session_stats` trigger) -/

/-- All attempts of one session, in insertion order. -/
def sessionAttempts (sid : ℕ) (attempts : List AttemptRow) : List AttemptRow :=
  attempts.filter fun a => a.session_id == sid

/-- The `update_session_stats` trigger function (migration "Fix
statistics tracking system", the latest revision): recounts the
session's attempts from the `word_attempts` table, recomputes
`correct_words` and `average_response_time` from that full set, and
marks the session completed with `end_time = COALESCE(end_time, NOW())`
exactly when the recount equals `total_words` and the session is not
already completed.  The average is recomputed as the mean over the
session's attempts; the trigger always runs with at least one attempt
present for the session. -/
def update_session_stats (attempts : List AttemptRow) (now : ℤ) (s : SessionRow) :
    SessionRow :=
  let atts := sessionAttempts s.session_id attempts
  let v_attempt_count : ℤ := atts.length
  let v_correct_count : ℤ := (atts.filter fun a => a.is_correct).length
  let v_avg : ℚ :=
    if atts.length = 0 then s.average_response_time
    else ((atts.map fun a => (a.response_time_ms : ℚ)).sum) / atts.length
  let s1 := { s with correct_words := v_correct_count, average_response_time := v_avg }
  if v_attempt_count = s.total_words ∧ s.completed = false then
    { s1 with completed := true, end_time := some (s.end_time.getD now) }
  else s1

/-- Inserting a row into `word_attempts`.  The table has no uniqueness
constraint on (session_id, word_id), so the insert always succeeds; the
AFTER INSERT trigger `update_session_stats` then updates the attempt's
session from a recount that includes the new row. -/
def recordAttempt (st : DBState) (row : AttemptRow) (now : ℤ) : DBState :=
  let attempts1 := st.attempts ++ [row]
  { sessions := st.sessions.map fun s =>
      if s.session_id = row.session_id then update_session_stats attempts1 now s else s,
    attempts := attempts1 }

/-! ## Session cleanup (`cleanup_old_sessions`) -/

/-- The ids selected by `cleanup_old_sessions`: the user's sessions
ordered by `created_at` DESC with the 10 most recent skipped
(`OFFSET 10`). -/
def oldSessionIds (uid : ℕ) (sessions : List SessionRow) : List ℕ :=
  (((sessions.filter fun s => s.user_id == uid).insertionSort
      fun a b => b.created_at ≤ a.created_at).drop 10).map fun s => s.session_id

/-- SQL function `cleanup_old_sessions` (migration "Rebuild Game
Sessions System"): deletes the word attempts of the user's sessions
beyond the 10 most recent, then deletes those sessions. -/
def cleanup_old_sessions (uid : ℕ) (st : DBState) : DBState :=
  let old_session_ids := oldSessionIds uid st.sessions
  { sessions := st.sessions.filter fun s => !(old_session_ids.contains s.session_id),
    attempts := st.attempts.filter fun a => !(old_session_ids.contains a.session_id) }

/-! ## Achievements (`check_word_achievements` trigger) -/

/-- One row of `achievements`. -/
structure Achievement where
  achievement_id : ℕ
  condition_type : String
  condition_value : ℕ
deriving DecidableEq

/-- The tier list the `check_word_achievements` loop iterates:
`SELECT * FROM achievements WHERE condition_type = 'words_mastered'
ORDER BY condition_value ASC`. -/
def wordsMasteredTiers (achievements : List Achievement) : List Achievement :=
  (achievements.filter fun a => a.condition_type == "words_mastered").insertionSort
    fun a b => a.condition_value ≤ b.condition_value

/-- The word-mastery part of the `check_word_achievements` trigger
function (migration "Add new achievements ..."): for each
`words_mastered` tier in ascending threshold order, if the user's
distinct-correct-word count has reached the threshold and no
`user_achievements` row exists for (user, achievement) — inserts made
earlier in the same loop are visible — insert one. -/
def check_word_achievements (uid : ℕ) (achievements : List Achievement)
    (mastered : ℕ) (user_achievements : List (ℕ × ℕ)) : List (ℕ × ℕ) :=
  (wordsMasteredTiers achievements).foldl
    (fun acc t =>
      if t.condition_value ≤ mastered ∧ (uid, t.achievement_id) ∉ acc
      then acc ++ [(uid, t.achievement_id)]
      else acc)
    user_achievements

/-! ## Due-word selection (NewGame spaced-repetition query) -/

/-- One row of `spaced_repetition_progress` joined with its word
(`words!inner`): review state plus the word's language and text. -/
structure ProgressRow where
  user_id : ℕ
  word_id : ℕ
  easiness_factor : ℚ
  interval : ℤ
  repetitions : ℕ
  next_review : ℤ
  last_review : ℤ
  language : String
  text : String
deriving DecidableEq

/-- The WHERE clause of the due-word query:
`user_id = uid AND words.language = language AND next_review <= now`. -/
def dueFilter (uid : ℕ) (language : String) (now : ℤ) (r : ProgressRow) : Bool :=
  r.user_id == uid && r.language == language && decide (r.next_review ≤ now)

/-- The ORDER BY relation of the due-word query:
`next_review` ascending, then `interval` ascending. -/
def dueOrder (a b : ProgressRow) : Prop :=
  a.next_review < b.next_review
    ∨ (a.next_review = b.next_review ∧ a.interval ≤ b.interval)

instance : DecidableRel dueOrder := fun a b => by
  unfold dueOrder; infer_instance

instance : IsTotal ProgressRow dueOrder :=
  ⟨fun a b => by unfold dueOrder; omega⟩

instance : IsTrans ProgressRow dueOrder :=
  ⟨fun a b c hab hbc => by unfold dueOrder at *; omega⟩

/-- The due-word query of NewGame.handleSubmit (GamePlay.tsx):
`.eq(user_id).eq(words.language).lte(next_review, now)
.order(next_review asc).order(interval asc).limit(limit)`;
the source instantiates `limit` with 10, and the ORDER BY is modelled
with a deterministic (stable) sort. -/
def selectDue (rows : List ProgressRow) (uid : ℕ) (language : String) (now : ℤ)
    (limit : ℕ) : List ProgressRow :=
  (((rows.filter (dueFilter uid language now)).insertionSort dueOrder).take limit)

/-! ## Custom word-list validation (NewGame.handleSubmit) -/

inductive NewGameError where
  | wordCount
  | invalidChars
  | duplicateWords
deriving DecidableEq

/-- A letter of the regex classes `a-z`, `A-Z`, `À-ÿ` (U+00C0–U+00FF). -/
def isWordLetter (c : Char) : Bool :=
  (Char.ofNat 97 ≤ c && c ≤ Char.ofNat 122)
    || (Char.ofNat 65 ≤ c && c ≤ Char.ofNat 90)
    || (Char.ofNat 0xC0 ≤ c && c ≤ Char.ofNat 0xFF)

/-- A character of the regex class `[-''a-zA-ZÀ-ÿ]`: hyphen, apostrophe
(U+0027) or letter. -/
def isWordJoiner (c : Char) : Bool :=
  c == Char.ofNat 45 || c == Char.ofNat 39 || isWordLetter c

/-- The `validWordPattern` regex of NewGame.handleSubmit:
`^[a-zA-ZÀ-ÿ]+[-''a-zA-ZÀ-ÿ]*[a-zA-ZÀ-ÿ]+$`.  A string matches exactly
when it has at least two characters, its first and last characters are
letters, and every character is a letter, hyphen or apostrophe. -/
def validWordPattern (w : String) : Bool :=
  match w.data with
  | [] => false
  | [_] => false
  | c :: d :: rest =>
    isWordLetter c && (d :: rest).all isWordJoiner
      && isWordLetter ((d :: rest).getLastD c)

/-- Helper for `jsSetDedup`: drops every element already seen. -/
def jsSetDedupAux (seen : List String) : List String → List String
  | [] => []
  | w :: ws =>
    if w ∈ seen then jsSetDedupAux seen ws
    else w :: jsSetDedupAux (w :: seen) ws

/-- JavaScript `[...new Set(words)]`: keeps the first occurrence of each
element, in order. -/
def jsSetDedup (l : List String) : List String :=
  jsSetDedupAux [] l

/-- The custom-mode validation of NewGame.handleSubmit, applied to the
entered tokens (the nonempty trimmed lowercased lines): rejects unless
there are exactly 10 tokens; rejects if any token fails
`validWordPattern`; deduplicates and rejects if any duplicate was
present; otherwise proceeds with the (unchanged) token list. -/
def validateCustomWords (words : List String) : Except NewGameError (List String) :=
  if words.length ≠ 10 then .error .wordCount
  else if ¬ (words.all validWordPattern) then .error .invalidChars
  else
    let uniqueWords := jsSetDedup words
    if uniqueWords.length ≠ words.length then .error .duplicateWords
    else .ok uniqueWords

/-! ## GamePlay word advance (`handleNextWord`) -/

/-- ASCII whitespace removed by `String.prototype.trim` (tab, LF, VT,
FF, CR, space); the inputs considered here contain no other whitespace. -/
def isJsWhitespace (c : Char) : Bool :=
  c == Char.ofNat 32 || c == Char.ofNat 9 || c == Char.ofNat 10
    || c == Char.ofNat 11 || c == Char.ofNat 12 || c == Char.ofNat 13

/-- `String.prototype.trim`. -/
def strTrim (s : String) : String :=
  String.mk (((s.data.dropWhile isJsWhitespace).reverse.dropWhile isJsWhitespace).reverse)

/-- `String.prototype.toLowerCase` on the ASCII and Latin-1 letters the
word pattern admits: A–Z and À–Þ (except ×) map down by 32. -/
def jsCharLower (c : Char) : Char :=
  if (Char.ofNat 65 ≤ c && c ≤ Char.ofNat 90)
      || (Char.ofNat 0xC0 ≤ c && c ≤ Char.ofNat 0xDE && c != Char.ofNat 0xD7)
  then Char.ofNat (c.toNat + 32) else c

/-- `String.prototype.toLowerCase`. -/
def strLower (s : String) : String :=
  String.mk (s.data.map jsCharLower)

/-- One element of the GamePlay `results` array. -/
structure GameResult where
  word : String
  correct : Bool
  userInput : String
deriving DecidableEq

/-- The component state handleNextWord reads and writes. -/
structure PlayState where
  results : List GameResult
  responseTimes : List ℤ
  currentWordIndex : ℕ
  currentWord : String
  userInput : String
  isComplete : Bool
deriving DecidableEq

/-- Outcome of the `word_attempts` insert as the supabase client
reports it: success, an error returned in the response (`{ error }`,
e.g. a constraint or policy violation — the promise resolves), or a
thrown exception (network failure — the promise rejects). -/
inductive InsertOutcome where
  | ok
  | dbError
  | thrown
deriving DecidableEq

/-- `handleNextWord` of GamePlay.tsx for a single un-reentrant
invocation (the `isHandlingNextWord`/`isPlaying`/`isLoading`/
`timerPaused` guards are assumed clear, and the session and word id are
present so the insert is attempted).  The attempt row is inserted with
`await supabase.from('word_attempts').insert(...)` whose result is not
inspected: a response-reported error is discarded and execution
continues; only a thrown exception stops the function before the state
updates (there is no catch block). -/
def handleNextWord (gameWords : List String) (st : PlayState)
    (outcome : InsertOutcome) (responseTime : ℤ) : PlayState :=
  if 50 < (strTrim st.userInput).length then st
  else
    let isCorrect := strTrim (strLower st.currentWord) == strLower (strTrim st.userInput)
    match outcome with
    | .thrown => st
    | _ =>
      let newResults := st.results ++
        [⟨st.currentWord, isCorrect,
          if strTrim st.userInput == "" then "dashboard.noAnswer"
          else strTrim st.userInput⟩]
      let newResponseTimes := st.responseTimes ++ [responseTime]
      let isLastWord := gameWords.length ≤ st.currentWordIndex + 1
      if isLastWord then
        { st with results := newResults, responseTimes := newResponseTimes,
                  userInput := "", isComplete := true }
      else
        { st with results := newResults, responseTimes := newResponseTimes,
                  userInput := "",
                  currentWordIndex := st.currentWordIndex + 1,
                  currentWord := gameWords.getD (st.currentWordIndex + 1) "" }

/-! ## Concrete sample data used by witness theorems -/

/-- An open session of user 7. -/
def sampleOpenSession : SessionRow :=
  ⟨1, 7, "custom", "en", 0, none, false, 10, 0, 0, 0⟩

/-- A fresh session row user 7 inserts next. -/
def sampleNewSession : SessionRow :=
  ⟨2, 7, "custom", "en", 5, none, false, 10, 0, 0, 5⟩

/-- A one-word session of user 7, not yet completed. -/
def sampleShortSession : SessionRow :=
  ⟨3, 7, "custom", "en", 0, none, false, 1, 0, 0, 0⟩

/-- An attempt of user 7 on word 11 in session 3. -/
def sampleAttempt : AttemptRow :=
  ⟨1, 3, 11, 7, "chat", true, 1200, 1⟩

/-- A two-word session of user 7, not yet completed. -/
def sampleTwoWordSession : SessionRow :=
  ⟨4, 7, "custom", "en", 0, none, false, 2, 0, 0, 0⟩

/-- First recording of word 11 in session 4. -/
def sampleDupAttempt1 : AttemptRow :=
  ⟨1, 4, 11, 7, "chat", true, 1000, 1⟩

/-- A retried recording of the same (session 4, word 11) pair. -/
def sampleDupAttempt2 : AttemptRow :=
  ⟨2, 4, 11, 7, "chat", true, 900, 2⟩

/-- Eleven completed sessions of user 7, created at times 0..10. -/
def manySessions : List SessionRow :=
  (List.range 11).map fun i => ⟨i, 7, "custom", "en", 0, none, true, 1, 0, 0, (i : ℤ)⟩

/-- An attempt belonging to user 7's oldest session (session_id 0). -/
def oldestAttempt : AttemptRow :=
  ⟨9, 0, 11, 7, "chat", true, 500, 0⟩

/-- Three word-mastery tiers and one unrelated achievement. -/
def sampleAchievements : List Achievement :=
  [⟨101, "words_mastered", 10⟩, ⟨102, "words_mastered", 25⟩,
   ⟨103, "words_mastered", 50⟩, ⟨104, "first_word", 1⟩]

/-- Five review rows: two due for user 7 in "en", one not yet due, one
of another user, one of another language. -/
def sampleProgressRows : List ProgressRow :=
  [⟨7, 11, 5/2, 0, 0, 3, 0, "en", "chat"⟩,
   ⟨7, 12, 5/2, 1, 0, 1, 0, "en", "chien"⟩,
   ⟨7, 13, 5/2, 0, 0, 9, 0, "en", "pomme"⟩,
   ⟨8, 14, 5/2, 0, 0, 1, 0, "en", "mer"⟩,
   ⟨7, 15, 5/2, 0, 0, 1, 0, "fr", "roi"⟩]

/-! ## Theorems: schedule calculator (C4, C5) -/

/-- C5: for every quality in {0,1,2} and every prior state, the schedule
calculator returns repetitions' = 0 and interval' = 1, regardless of the
prior values — in the SQL `calculate_next_interval` and in the client's
`updateSpacedRepetitionProgress` (which realises the quality-0 case). -/
theorem failure_resets_progress (quality : ℤ) (hq0 : 0 ≤ quality) (hq2 : quality ≤ 2)
    (ef : ℚ) (i : ℤ) (r : ℕ) (s : SM2State) :
    calculate_next_interval quality ef i r = .ok ⟨sm2NewEF quality ef, 1, 0⟩
    ∧ (updateSpacedRepetitionProgress false s).interval = 1
    ∧ (updateSpacedRepetitionProgress false s).repetitions = 0 := by
  refine ⟨?_, rfl, rfl⟩
  simp only [calculate_next_interval]
  rw [if_neg (by omega), if_pos (by omega)]

theorem failure_resets_progress_witness :
    ((0:ℤ) ≤ 1 ∧ (1:ℤ) ≤ 2)
    ∧ (calculate_next_interval 1 2 5 4 = .ok ⟨sm2NewEF 1 2, 1, 0⟩
        ∧ (updateSpacedRepetitionProgress false ⟨2, 5, 4⟩).interval = 1
        ∧ (updateSpacedRepetitionProgress false ⟨2, 5, 4⟩).repetitions = 0) :=
  ⟨⟨by decide, by decide⟩, failure_resets_progress 1 (by decide) (by decide) 2 5 4 ⟨2, 5, 4⟩⟩

/-- C4 (counterexample): at prior state (ef = 2.5, interval = 6,
repetitions = 2) with a correct answer (quality 5), the client's
`updateSpacedRepetitionProgress` returns interval 15 — computed from the
*old* easiness factor — while `round(interval × ef')` with the updated
easiness factor ef' = 2.6 is 16, which is what the SQL
`calculate_next_interval` returns.  The claim as stated (interval' =
round(interval × ef') for every prior state) is therefore false of the
client implementation. -/
theorem client_interval_uses_stale_ef :
    updateSpacedRepetitionProgress true ⟨5/2, 6, 2⟩ = ⟨13/5, 15, 3⟩
    ∧ round ((6 : ℚ) * (13/5)) = (16 : ℤ)
    ∧ calculate_next_interval 5 (5/2) 6 2 = .ok ⟨13/5, 16, 3⟩ := by
  refine ⟨?_, by norm_num [round_eq], ?_⟩
  · simp only [updateSpacedRepetitionProgress]
    norm_num [round_eq, SM2State.mk.injEq]
  · simp only [calculate_next_interval, sm2NewEF]
    norm_num [round_eq, SM2State.mk.injEq]

/-- C4 (amended): for every quality ≥ 3, both implementations return
repetitions' = repetitions + 1 and interval' = 1 if repetitions' = 1,
6 if repetitions' = 2; for repetitions' ≥ 3 the SQL
`calculate_next_interval` returns round(interval × ef') with ef' the
updated easiness factor, while the client's
`updateSpacedRepetitionProgress` returns round(interval × ef) with ef
the prior easiness factor. -/
theorem success_interval_progression (quality : ℤ) (hq3 : 3 ≤ quality) (hq5 : quality ≤ 5)
    (ef : ℚ) (i : ℤ) (r : ℕ) (s : SM2State) :
    calculate_next_interval quality ef i r
      = .ok ⟨sm2NewEF quality ef,
              if r + 1 = 1 then 1 else if r + 1 = 2 then 6
                else round ((i : ℚ) * sm2NewEF quality ef),
              r + 1⟩
    ∧ (updateSpacedRepetitionProgress true s).repetitions = s.repetitions + 1
    ∧ (updateSpacedRepetitionProgress true s).interval
        = (if s.repetitions + 1 = 1 then 1 else if s.repetitions + 1 = 2 then 6
            else round ((s.interval : ℚ) * s.easiness_factor)) := by
  refine ⟨?_, rfl, ?_⟩
  · simp only [calculate_next_interval]
    rw [if_neg (by omega), if_neg (by omega)]
  · simp only [updateSpacedRepetitionProgress]
    rcases Nat.eq_zero_or_pos s.repetitions with h0 | hpos
    · simp [h0]
    · rcases Nat.lt_or_ge s.repetitions 2 with h1 | h2
      · have : s.repetitions = 1 := by omega
        simp [this]
      · have hne0 : s.repetitions ≠ 0 := by omega
        have hne1 : s.repetitions ≠ 1 := by omega
        simp [hne0, hne1]

theorem success_interval_progression_witness :
    ((3:ℤ) ≤ 5 ∧ (5:ℤ) ≤ 5)
    ∧ (calculate_next_interval 5 (5/2) 6 2
        = .ok ⟨sm2NewEF 5 (5/2),
                if 2 + 1 = 1 then 1 else if 2 + 1 = 2 then 6
                  else round ((6 : ℚ) * sm2NewEF 5 (5/2)),
                2 + 1⟩
        ∧ (updateSpacedRepetitionProgress true ⟨5/2, 6, 2⟩).repetitions = 2 + 1
        ∧ (updateSpacedRepetitionProgress true ⟨5/2, 6, 2⟩).interval
            = (if 2 + 1 = 1 then 1 else if 2 + 1 = 2 then 6
                else round ((6 : ℚ) * (5/2)))) :=
  ⟨⟨by decide, by decide⟩,
    success_interval_progression 5 (by decide) (by decide) (5/2) 6 2 ⟨5/2, 6, 2⟩⟩

/-! ## Theorems: session creation (C2) -/

/-- After the auto-complete step, the inserting user has no open
session left. -/
theorem openSessionsOf_complete_self (uid : ℕ) (now : ℤ) (l : List SessionRow) :
    openSessionsOf uid (completeOpenSessionsFor uid now l) = [] := by
  unfold openSessionsOf completeOpenSessionsFor
  rw [List.filter_eq_nil_iff]
  intro s hs
  rw [List.mem_map] at hs
  obtain ⟨t, ht, rfl⟩ := hs
  by_cases h : t.user_id = uid ∧ t.completed = false
  · simp [h]
  · rw [if_neg h]
    simp only [Bool.and_eq_true, beq_iff_eq]
    exact fun hcon => h ⟨hcon.1, hcon.2⟩

/-- `openSessionsOf` on a cons unfolds to a conditional. -/
theorem openSessionsOf_cons (u : ℕ) (s : SessionRow) (l : List SessionRow) :
    openSessionsOf u (s :: l)
      = if s.user_id == u && s.completed == false
        then s :: openSessionsOf u l else openSessionsOf u l := by
  simp [openSessionsOf, List.filter_cons]

/-- The auto-complete step for one user does not change another user's
open sessions. -/
theorem openSessionsOf_complete_other {u uid : ℕ} (hne : u ≠ uid) (now : ℤ)
    (l : List SessionRow) :
    openSessionsOf u (completeOpenSessionsFor uid now l) = openSessionsOf u l := by
  induction l with
  | nil => rfl
  | cons t ts ih =>
    have hmap : completeOpenSessionsFor uid now (t :: ts)
        = (if t.user_id = uid ∧ t.completed = false
           then { t with completed := true, end_time := some now } else t)
          :: completeOpenSessionsFor uid now ts := rfl
    rw [hmap]
    by_cases h : t.user_id = uid ∧ t.completed = false
    · have hfu : (t.user_id == u) = false := by
        rw [h.1]
        exact beq_eq_false_iff_ne.mpr (Ne.symm hne)
      rw [if_pos h, openSessionsOf_cons, openSessionsOf_cons]
      rw [show (({ t with completed := true, end_time := some now } :
            SessionRow).user_id == u
            && ({ t with completed := true, end_time := some now } :
            SessionRow).completed == false) = false from by
          rw [show ({ t with completed := true, end_time := some now } :
            SessionRow).user_id = t.user_id from rfl, hfu]; rfl]
      rw [show (t.user_id == u && t.completed == false) = false from by
          rw [hfu]; rfl]
      simpa using ih
    · rw [if_neg h, openSessionsOf_cons, openSessionsOf_cons, ih]

/-- C2: a successful `startSession` completes (completed := true,
end_time := now) every previously open session of the creating user as
part of the same creation step, leaves that user with exactly one open
session (the new one), and preserves the at-most-one-open-session
invariant for every user. -/
theorem startSession_single_open (st : DBState) (new : SessionRow) (now : ℤ)
    (hv : validate_session_checks new = true)
    (hInv : ∀ u, (openSessionsOf u st.sessions).length ≤ 1) :
    ∃ st', startSession st new now = .ok st'
      ∧ (∀ u, (openSessionsOf u st'.sessions).length ≤ 1)
      ∧ (openSessionsOf new.user_id st'.sessions).length = 1
      ∧ (∀ s ∈ st.sessions, s.user_id = new.user_id → s.completed = false →
          ({ s with completed := true, end_time := some now } : SessionRow)
            ∈ st'.sessions) := by
  refine ⟨_, by rw [startSession, if_pos hv], ?_, ?_, ?_⟩
  case refine_2 =>
    show (openSessionsOf new.user_id
      (completeOpenSessionsFor new.user_id now st.sessions
        ++ [{ new with completed := false, end_time := none }])).length = 1
    rw [openSessionsOf, List.filter_append]
    rw [show List.filter _ (completeOpenSessionsFor new.user_id now st.sessions) =
          openSessionsOf new.user_id (completeOpenSessionsFor new.user_id now st.sessions)
        from rfl]
    rw [openSessionsOf_complete_self]
    simp [openSessionsOf]
  case refine_1 =>
    intro u
    show (openSessionsOf u
      (completeOpenSessionsFor new.user_id now st.sessions
        ++ [{ new with completed := false, end_time := none }])).length ≤ 1
    rw [openSessionsOf, List.filter_append]
    by_cases hu : u = new.user_id
    · subst hu
      rw [show List.filter _ (completeOpenSessionsFor new.user_id now st.sessions) =
            openSessionsOf new.user_id
              (completeOpenSessionsFor new.user_id now st.sessions) from rfl]
      rw [openSessionsOf_complete_self]
      simp [openSessionsOf]
    · rw [show List.filter _ (completeOpenSessionsFor new.user_id now st.sessions) =
            openSessionsOf u (completeOpenSessionsFor new.user_id now st.sessions) from rfl]
      rw [openSessionsOf_complete_other hu]
      have hnew : (({ new with completed := false, end_time := none } :
          SessionRow).user_id == u) = false :=
        beq_eq_false_iff_ne.mpr (fun hc => hu (hc ▸ rfl))
      simp only [List.filter_cons, List.filter_nil]
      rw [show (({ new with completed := false, end_time := none} : SessionRow).user_id
            == u && ({ new with completed := false, end_time := none} :
              SessionRow).completed == false) = false by rw [hnew]; rfl]
      simpa using hInv u
  case refine_3 =>
    intro s hs h1 h2
    apply List.mem_append_left
    have : ({ s with completed := true, end_time := some now } : SessionRow)
        = (fun t => if t.user_id = new.user_id ∧ t.completed = false
            then { t with completed := true, end_time := some now } else t) s := by
      show ({ s with completed := true, end_time := some now } : SessionRow)
          = if s.user_id = new.user_id ∧ s.completed = false
            then { s with completed := true, end_time := some now } else s
      rw [if_pos ⟨h1, h2⟩]
    rw [this]
    exact List.mem_map_of_mem _ hs

theorem startSession_single_open_witness :
    validate_session_checks sampleNewSession = true
    ∧ (∀ u, (openSessionsOf u (DBState.mk [sampleOpenSession] []).sessions).length ≤ 1)
    ∧ (∃ st', startSession ⟨[sampleOpenSession], []⟩ sampleNewSession 5 = .ok st'
        ∧ (∀ u, (openSessionsOf u st'.sessions).length ≤ 1)
        ∧ (openSessionsOf sampleNewSession.user_id st'.sessions).length = 1
        ∧ (∀ s ∈ (DBState.mk [sampleOpenSession] []).sessions,
            s.user_id = sampleNewSession.user_id → s.completed = false →
            ({ s with completed := true, end_time := some 5 } : SessionRow)
              ∈ st'.sessions)) := by
  refine ⟨by decide, ?_, ?_⟩
  · intro u
    by_cases h : u = 7
    · subst h; decide
    · simp only [DBState.mk, openSessionsOf, sampleOpenSession, List.filter_cons]
      have : ((7:ℕ) == u) = false := beq_eq_false_iff_ne.mpr (fun hc => h (hc ▸ rfl))
      rw [show (((7:ℕ) == u) && (false == false)) = false by rw [this]; rfl]
      simp
  · refine startSession_single_open ⟨[sampleOpenSession], []⟩ sampleNewSession 5
      (by decide) ?_
    intro u
    by_cases h : u = 7
    · subst h; decide
    · simp only [openSessionsOf, sampleOpenSession, List.filter_cons]
      have : ((7:ℕ) == u) = false := beq_eq_false_iff_ne.mpr (fun hc => h (hc ▸ rfl))
      rw [show (((7:ℕ) == u) && (false == false)) = false by rw [this]; rfl]
      simp

/-! ## Theorems: completion detection (C3) and attempt recording (C1) -/

/-- `update_session_stats` is determined by the attempts table alone:
running it a second time over the same durable state is the identity. -/
theorem update_session_stats_idem (attempts : List AttemptRow) (now : ℤ)
    (s : SessionRow) :
    update_session_stats attempts now (update_session_stats attempts now s)
      = update_session_stats attempts now s := by
  simp only [update_session_stats]
  split_ifs <;> simp_all

/-- C3: after `recordAttempt`, the attempt's session row (updated by the
`update_session_stats` trigger) is completed exactly when the recount of
its attempts in the durable attempts table — which includes the new
row — equals `total_words`; completion sets the end time; and a second
evaluation of the trigger over the same durable state changes nothing. -/
theorem completion_by_recount (st : DBState) (row : AttemptRow) (now : ℤ)
    (s : SessionRow) (hs : s ∈ st.sessions) (hsid : s.session_id = row.session_id)
    (hnc : s.completed = false) :
    (update_session_stats (st.attempts ++ [row]) now s
        ∈ (recordAttempt st row now).sessions)
    ∧ ((update_session_stats (st.attempts ++ [row]) now s).completed = true
        ↔ ((sessionAttempts s.session_id (recordAttempt st row now).attempts).length : ℤ)
            = s.total_words)
    ∧ (((sessionAttempts s.session_id (recordAttempt st row now).attempts).length : ℤ)
          = s.total_words →
        (update_session_stats (st.attempts ++ [row]) now s).end_time
          = some (s.end_time.getD now))
    ∧ update_session_stats (st.attempts ++ [row]) now
        (update_session_stats (st.attempts ++ [row]) now s)
        = update_session_stats (st.attempts ++ [row]) now s := by
  refine ⟨?_, ?_, ?_, update_session_stats_idem _ _ _⟩
  · have : update_session_stats (st.attempts ++ [row]) now s
        = (fun t => if t.session_id = row.session_id
            then update_session_stats (st.attempts ++ [row]) now t else t) s := by
      show _ = if s.session_id = row.session_id
          then update_session_stats (st.attempts ++ [row]) now s else s
      rw [if_pos hsid]
    rw [this]
    exact List.mem_map_of_mem _ hs
  · show (update_session_stats (st.attempts ++ [row]) now s).completed = true
        ↔ ((sessionAttempts s.session_id (st.attempts ++ [row])).length : ℤ)
            = s.total_words
    unfold update_session_stats
    by_cases h : ((sessionAttempts s.session_id (st.attempts ++ [row])).length : ℤ)
        = s.total_words
    · rw [if_pos ⟨h, hnc⟩]
      simpa using h
    · rw [if_neg (fun hc => h hc.1)]
      simpa [hnc] using h
  · intro h
    show (update_session_stats (st.attempts ++ [row]) now s).end_time
        = some (s.end_time.getD now)
    unfold update_session_stats
    rw [if_pos ⟨h, hnc⟩]

theorem completion_by_recount_witness :
    (sampleShortSession ∈ (DBState.mk [sampleShortSession] []).sessions
      ∧ sampleShortSession.session_id = sampleAttempt.session_id
      ∧ sampleShortSession.completed = false)
    ∧ ((update_session_stats ([] ++ [sampleAttempt]) 9 sampleShortSession
          ∈ (recordAttempt ⟨[sampleShortSession], []⟩ sampleAttempt 9).sessions)
        ∧ ((update_session_stats ([] ++ [sampleAttempt]) 9 sampleShortSession).completed
              = true
            ↔ ((sessionAttempts sampleShortSession.session_id
                (recordAttempt ⟨[sampleShortSession], []⟩ sampleAttempt 9).attempts).length
                : ℤ) = sampleShortSession.total_words)
        ∧ (((sessionAttempts sampleShortSession.session_id
              (recordAttempt ⟨[sampleShortSession], []⟩ sampleAttempt 9).attempts).length
              : ℤ) = sampleShortSession.total_words →
            (update_session_stats ([] ++ [sampleAttempt]) 9 sampleShortSession).end_time
              = some (sampleShortSession.end_time.getD 9))
        ∧ update_session_stats ([] ++ [sampleAttempt]) 9
            (update_session_stats ([] ++ [sampleAttempt]) 9 sampleShortSession)
            = update_session_stats ([] ++ [sampleAttempt]) 9 sampleShortSession) :=
  ⟨⟨by decide, by decide, by decide⟩,
    completion_by_recount ⟨[sampleShortSession], []⟩ sampleAttempt 9 sampleShortSession
      (by decide) (by decide) (by decide)⟩

/-- C1: the insert path of `word_attempts` never rejects a duplicate
(session, word) pair — the table has no uniqueness constraint on the
pair and `update_session_stats` only recounts.  Recording the same
word of session 4 twice leaves two persisted rows for the pair, and the
final trigger double-counts them: the two-word session is marked
completed with correct_words = 2 after submissions of a single distinct
word. -/
theorem duplicate_attempt_not_rejected :
    ((recordAttempt (recordAttempt ⟨[sampleTwoWordSession], []⟩ sampleDupAttempt1 10)
        sampleDupAttempt2 20).attempts.filter
          fun a => a.session_id == 4 && a.word_id == 11).length = 2
    ∧ (∀ s ∈ (recordAttempt (recordAttempt ⟨[sampleTwoWordSession], []⟩
          sampleDupAttempt1 10) sampleDupAttempt2 20).sessions,
        s.completed = true ∧ s.correct_words = 2) := by
  constructor
  · decide
  · intro s hs
    simp only [recordAttempt, update_session_stats, sessionAttempts] at hs
    simp only [List.map_cons, List.map_nil] at hs
    rcases List.mem_singleton.mp hs with rfl
    constructor <;> decide

/-! ## Theorems: error handling of the attempt write (C6) -/

/-- C6: when the `word_attempts` insert resolves with a
response-reported error, `handleNextWord` ignores it: the result is
appended and the word index still advances to the next word.  Only a
thrown exception (a rejected promise) leaves the component state
unchanged, because the state updates after the `await` are skipped. -/
theorem failed_write_still_advances :
    (handleNextWord ["chat", "chien"] ⟨[], [], 0, "chat", "chta", false⟩
        .dbError 1200).currentWordIndex = 1
    ∧ (handleNextWord ["chat", "chien"] ⟨[], [], 0, "chat", "chta", false⟩
        .dbError 1200).results = [⟨"chat", false, "chta"⟩]
    ∧ (handleNextWord ["chat", "chien"] ⟨[], [], 0, "chat", "chta", false⟩
        .dbError 1200).currentWord = "chien"
    ∧ handleNextWord ["chat", "chien"] ⟨[], [], 0, "chat", "chta", false⟩
        .thrown 1200 = ⟨[], [], 0, "chat", "chta", false⟩ := by
  refine ⟨?_, ?_, ?_, ?_⟩ <;> decide

/-! ## Theorems: attempt immutability (C7) -/

/-- C7 (counterexample): `cleanup_old_sessions` removes persisted
Attempt rows.  With eleven sessions for user 7 (created at 0..10), the
attempt belonging to the oldest session is present before the cleanup
and gone afterwards. -/
theorem cleanup_deletes_attempts :
    oldestAttempt ∈ (DBState.mk manySessions [oldestAttempt]).attempts
    ∧ (cleanup_old_sessions 7 ⟨manySessions, [oldestAttempt]⟩).attempts = [] := by
  exact ⟨by decide, by decide⟩

/-- C7 (amended): attempt rows are never updated, and outside
`cleanup_old_sessions` never removed — recording only appends a row and
keeps every existing row unchanged, session creation leaves the attempts
table untouched — while `cleanup_old_sessions` removes exactly the
attempts of the user's sessions beyond the 10 most recent (those whose
session id is in `oldSessionIds`). -/
theorem attempts_append_only_outside_cleanup (st : DBState) (row : AttemptRow)
    (new : SessionRow) (now : ℤ) (uid : ℕ) :
    (recordAttempt st row now).attempts = st.attempts ++ [row]
    ∧ (∀ st', startSession st new now = .ok st' → st'.attempts = st.attempts)
    ∧ (∀ a, a ∈ (cleanup_old_sessions uid st).attempts ↔
        a ∈ st.attempts
          ∧ ((oldSessionIds uid st.sessions).contains a.session_id) = false) := by
  refine ⟨rfl, ?_, ?_⟩
  · intro st' h
    unfold startSession at h
    by_cases hv : validate_session_checks new
    · rw [if_pos hv] at h
      cases h
      rfl
    · rw [if_neg hv] at h
      cases h
  · intro a
    unfold cleanup_old_sessions
    simp [List.mem_filter]

theorem attempts_append_only_outside_cleanup_witness :
    ((recordAttempt (DBState.mk manySessions [oldestAttempt]) sampleAttempt 9).attempts
        = [oldestAttempt] ++ [sampleAttempt])
    ∧ (∀ st', startSession (DBState.mk manySessions [oldestAttempt]) sampleNewSession 9
          = .ok st' → st'.attempts = [oldestAttempt])
    ∧ (∀ a, a ∈ (cleanup_old_sessions 7 (DBState.mk manySessions [oldestAttempt])).attempts
        ↔ a ∈ [oldestAttempt]
          ∧ ((oldSessionIds 7 manySessions).contains a.session_id) = false) :=
  attempts_append_only_outside_cleanup
    (DBState.mk manySessions [oldestAttempt]) sampleAttempt sampleNewSession 9 7

/-! ## Theorems: achievements (C8) -/

/-- Fold invariant of the tier loop of `check_word_achievements`: the
accumulator stays duplicate-free, is only appended to, and every tier
whose threshold is reached ends up a member. -/
theorem tierLoop_invariant (uid mastered : ℕ) (tiers : List Achievement)
    (acc : List (ℕ × ℕ)) (hnd : acc.Nodup) :
    (tiers.foldl
        (fun acc t =>
          if t.condition_value ≤ mastered ∧ (uid, t.achievement_id) ∉ acc
          then acc ++ [(uid, t.achievement_id)]
          else acc) acc).Nodup
    ∧ (∀ p ∈ acc, p ∈ tiers.foldl
        (fun acc t =>
          if t.condition_value ≤ mastered ∧ (uid, t.achievement_id) ∉ acc
          then acc ++ [(uid, t.achievement_id)]
          else acc) acc)
    ∧ (∀ t ∈ tiers, t.condition_value ≤ mastered →
        (uid, t.achievement_id) ∈ tiers.foldl
          (fun acc t =>
            if t.condition_value ≤ mastered ∧ (uid, t.achievement_id) ∉ acc
            then acc ++ [(uid, t.achievement_id)]
            else acc) acc) := by
  induction tiers generalizing acc with
  | nil => exact ⟨hnd, fun p hp => hp, by simp⟩
  | cons t ts ih =>
    simp only [List.foldl_cons]
    by_cases h : t.condition_value ≤ mastered ∧ (uid, t.achievement_id) ∉ acc
    · rw [if_pos h]
      have hnd1 : (acc ++ [(uid, t.achievement_id)]).Nodup :=
        hnd.append (List.nodup_singleton _)
          (fun a ha hax => h.2 (by rwa [List.mem_singleton.mp hax] at ha))
      obtain ⟨H1, H2, H3⟩ := ih _ hnd1
      refine ⟨H1, fun p hp => H2 p (List.mem_append_left _ hp), ?_⟩
      intro u hu hle
      rcases List.mem_cons.mp hu with rfl | hmem
      · exact H2 _ (List.mem_append_right _ (List.mem_singleton_self _))
      · exact H3 u hmem hle
    · rw [if_neg h]
      obtain ⟨H1, H2, H3⟩ := ih _ hnd
      refine ⟨H1, H2, ?_⟩
      intro u hu hle
      rcases List.mem_cons.mp hu with rfl | hmem
      · have hin : (uid, u.achievement_id) ∈ acc := by
          by_contra hc
          exact h ⟨hle, hc⟩
        exact H2 _ hin
      · exact H3 u hmem hle

/-- If every reached tier is already recorded, the tier loop changes
nothing. -/
theorem tierLoop_fixed (uid mastered : ℕ) (tiers : List Achievement)
    (acc : List (ℕ × ℕ))
    (hall : ∀ t ∈ tiers, t.condition_value ≤ mastered →
      (uid, t.achievement_id) ∈ acc) :
    tiers.foldl
        (fun acc t =>
          if t.condition_value ≤ mastered ∧ (uid, t.achievement_id) ∉ acc
          then acc ++ [(uid, t.achievement_id)]
          else acc) acc = acc := by
  induction tiers generalizing acc with
  | nil => rfl
  | cons t ts ih =>
    simp only [List.foldl_cons]
    have hstep : (if t.condition_value ≤ mastered ∧ (uid, t.achievement_id) ∉ acc
        then acc ++ [(uid, t.achievement_id)] else acc) = acc := by
      split_ifs with h
      · exact (h.2 (hall t (List.mem_cons_self t ts) h.1)).elim
      · rfl
    rw [hstep]
    exact ih acc (fun u hu hle => hall u (List.mem_cons_of_mem t hu) hle)

/-- C8: evaluating `check_word_achievements` never duplicates a
(user, achievement) row — the existence check runs before every insert —
and when the distinct-correct-word count reaches several
`words_mastered` tiers, every tier at or below the count is unlocked,
each exactly once; re-evaluating over the resulting rows changes
nothing. -/
theorem achievements_unlock_exactly_once (uid mastered : ℕ)
    (achievements : List Achievement) (ua : List (ℕ × ℕ)) (hnd : ua.Nodup) :
    (check_word_achievements uid achievements mastered ua).Nodup
    ∧ (∀ p ∈ ua, @List.count (ℕ × ℕ) instBEqOfDecidableEq p
        (check_word_achievements uid achievements mastered ua) = 1)
    ∧ (∀ t ∈ achievements, t.condition_type = "words_mastered" →
        t.condition_value ≤ mastered →
        @List.count (ℕ × ℕ) instBEqOfDecidableEq (uid, t.achievement_id)
          (check_word_achievements uid achievements mastered ua) = 1)
    ∧ check_word_achievements uid achievements mastered
        (check_word_achievements uid achievements mastered ua)
        = check_word_achievements uid achievements mastered ua := by
  obtain ⟨H1, H2, H3⟩ :=
    tierLoop_invariant uid mastered (wordsMasteredTiers achievements) ua hnd
  refine ⟨H1, ?_, ?_, ?_⟩
  · intro p hp
    exact List.count_eq_one_of_mem H1 (H2 p hp)
  · intro t ht htype hle
    have htier : t ∈ wordsMasteredTiers achievements := by
      unfold wordsMasteredTiers
      rw [List.mem_insertionSort]
      exact List.mem_filter.mpr ⟨ht, by simp [htype]⟩
    exact List.count_eq_one_of_mem H1 (H3 t htier hle)
  · exact tierLoop_fixed uid mastered _ _ (fun t ht hle => H3 t ht hle)

theorem achievements_unlock_exactly_once_witness :
    ([] : List (ℕ × ℕ)).Nodup
    ∧ ((check_word_achievements 7 sampleAchievements 25 []).Nodup
      ∧ (∀ p ∈ ([] : List (ℕ × ℕ)),
          @List.count (ℕ × ℕ) instBEqOfDecidableEq p
            (check_word_achievements 7 sampleAchievements 25 []) = 1)
      ∧ (∀ t ∈ sampleAchievements, t.condition_type = "words_mastered" →
          t.condition_value ≤ 25 →
          @List.count (ℕ × ℕ) instBEqOfDecidableEq (7, t.achievement_id)
            (check_word_achievements 7 sampleAchievements 25 []) = 1)
      ∧ check_word_achievements 7 sampleAchievements 25
          (check_word_achievements 7 sampleAchievements 25 [])
          = check_word_achievements 7 sampleAchievements 25 []) :=
  ⟨List.nodup_nil, achievements_unlock_exactly_once 7 25 sampleAchievements [] List.nodup_nil⟩

/-! ## Theorems: due-word selection (C9) -/

/-- C9: the due-word query returns only rows of the requesting user, in
the requested language, with `next_review ≤ now`; the result is sorted
by (next_review asc, interval asc); its length is the qualifying count
capped at `limit`; and when the qualifying count fits within the limit,
every qualifying row is returned. -/
theorem selectDue_spec (rows : List ProgressRow) (uid : ℕ) (language : String)
    (now : ℤ) (limit : ℕ) :
    (∀ r ∈ selectDue rows uid language now limit,
        r.user_id = uid ∧ r.language = language ∧ r.next_review ≤ now)
    ∧ (selectDue rows uid language now limit).Sorted dueOrder
    ∧ (selectDue rows uid language now limit).length
        = min limit (rows.filter (dueFilter uid language now)).length
    ∧ (∀ r ∈ rows, dueFilter uid language now r = true →
        (rows.filter (dueFilter uid language now)).length ≤ limit →
        r ∈ selectDue rows uid language now limit) := by
  refine ⟨?_, ?_, ?_, ?_⟩
  · intro r hr
    have h1 : r ∈ (rows.filter (dueFilter uid language now)).insertionSort dueOrder :=
      List.mem_of_mem_take hr
    have h2 : r ∈ rows.filter (dueFilter uid language now) :=
      (List.mem_insertionSort _).mp h1
    have h3 := (List.mem_filter.mp h2).2
    unfold dueFilter at h3
    simp only [Bool.and_eq_true, beq_iff_eq, decide_eq_true_eq] at h3
    exact ⟨h3.1.1, h3.1.2, h3.2⟩
  · exact List.Pairwise.sublist (List.take_sublist _ _)
      (List.sorted_insertionSort dueOrder (rows.filter (dueFilter uid language now)))
  · rw [selectDue, List.length_take, List.length_insertionSort]
  · intro r hr hdue hlen
    rw [selectDue, List.take_of_length_le
      (by rw [List.length_insertionSort]; exact hlen)]
    exact (List.mem_insertionSort _).mpr (List.mem_filter.mpr ⟨hr, hdue⟩)

theorem selectDue_spec_witness :
    (∀ r ∈ selectDue sampleProgressRows 7 "en" 5 10,
        r.user_id = 7 ∧ r.language = "en" ∧ r.next_review ≤ 5)
    ∧ (selectDue sampleProgressRows 7 "en" 5 10).Sorted dueOrder
    ∧ (selectDue sampleProgressRows 7 "en" 5 10).length
        = min 10 (sampleProgressRows.filter (dueFilter 7 "en" 5)).length
    ∧ (∀ r ∈ sampleProgressRows, dueFilter 7 "en" 5 r = true →
        (sampleProgressRows.filter (dueFilter 7 "en" 5)).length ≤ 10 →
        r ∈ selectDue sampleProgressRows 7 "en" 5 10) :=
  selectDue_spec sampleProgressRows 7 "en" 5 10

/-! ## Theorems: custom word-list validation (C10) -/

theorem jsSetDedupAux_sublist (seen l : List String) :
    (jsSetDedupAux seen l).Sublist l := by
  induction l generalizing seen with
  | nil => exact List.Sublist.refl _
  | cons w ws ih =>
    simp only [jsSetDedupAux]
    split_ifs with h
    · exact (ih seen).trans (List.sublist_cons_self _ _)
    · exact (ih (w :: seen)).cons₂ w

theorem jsSetDedupAux_nodup (seen l : List String) :
    (jsSetDedupAux seen l).Nodup
      ∧ ∀ x ∈ jsSetDedupAux seen l, x ∉ seen := by
  induction l generalizing seen with
  | nil => exact ⟨List.nodup_nil, by simp [jsSetDedupAux]⟩
  | cons w ws ih =>
    simp only [jsSetDedupAux]
    split_ifs with h
    · exact ih seen
    · obtain ⟨hnd, hnotin⟩ := ih (w :: seen)
      refine ⟨List.nodup_cons.mpr ⟨?_, hnd⟩, ?_⟩
      · intro hmem
        exact (hnotin w hmem) (List.mem_cons_self w seen)
      · intro x hx
        rcases List.mem_cons.mp hx with rfl | hx2
        · exact h
        · intro hxs
          exact (hnotin x hx2) (List.mem_cons_of_mem w hxs)

theorem jsSetDedupAux_eq_self (l : List String) :
    ∀ seen, l.Nodup → (∀ x ∈ l, x ∉ seen) → jsSetDedupAux seen l = l := by
  induction l with
  | nil => intro seen _ _; rfl
  | cons w ws ih =>
    intro seen hnd hdisj
    simp only [jsSetDedupAux]
    rw [if_neg (hdisj w (List.mem_cons_self w ws))]
    congr 1
    apply ih (w :: seen) (List.nodup_cons.mp hnd).2
    intro x hx hmem
    rcases List.mem_cons.mp hmem with rfl | h2
    · exact (List.nodup_cons.mp hnd).1 hx
    · exact hdisj x (List.mem_cons_of_mem w hx) h2

/-- The validation succeeds (with the word list unchanged) exactly when
there are 10 tokens, all matching the pattern, with no duplicate. -/
theorem validateCustomWords_ok_iff (words : List String) :
    validateCustomWords words = .ok words
      ↔ (words.length = 10 ∧ (∀ w ∈ words, validWordPattern w = true)
          ∧ words.Nodup) := by
  constructor
  · intro h
    simp only [validateCustomWords] at h
    split_ifs at h with h1 h2 h3
    have heq : jsSetDedup words = words := Except.ok.inj h
    refine ⟨by omega, fun w hw => List.all_eq_true.mp h2 w hw, ?_⟩
    rw [← heq]
    exact (jsSetDedupAux_nodup [] words).1
  · rintro ⟨h1, h2, h3⟩
    have hall : words.all validWordPattern = true :=
      List.all_eq_true.mpr (fun w hw => h2 w hw)
    have heq : jsSetDedup words = words :=
      jsSetDedupAux_eq_self words [] h3 (by simp)
    simp only [validateCustomWords]
    rw [if_neg (by omega), if_neg (by simp [hall]), heq, if_neg (by omega)]

/-- C10 (counterexample): session creation does not accept every
nonempty well-formed list and does not deduplicate: a single valid word
is rejected with the word-count error, and a 10-token list whose tokens
all pass the format check but contain a duplicate is rejected with the
duplicate-words error instead of being deduplicated. -/
theorem custom_list_rejections :
    (validWordPattern "chat" = true
      ∧ validateCustomWords ["chat"] = .error .wordCount)
    ∧ ((["chat", "chat", "chien", "pomme", "terre", "mer", "ciel", "roi",
          "reine", "fleur"].all validWordPattern) = true
      ∧ validateCustomWords ["chat", "chat", "chien", "pomme", "terre", "mer",
          "ciel", "roi", "reine", "fleur"] = .error .duplicateWords) := by
  exact ⟨⟨by decide, rfl⟩, by decide, rfl⟩

/-- C10 (amended): the client accepts a custom list only when it has
exactly 10 tokens, every token matches the letters-plus-internal-
apostrophes/hyphens pattern (which requires at least two letters), and
no token repeats — a repeated token is rejected, not deduplicated; mode
and language are validated against their supported sets by the session
insert. -/
theorem custom_session_validation (words : List String) (st : DBState)
    (new : SessionRow) (now : ℤ) :
    (validateCustomWords words = .ok words
      ↔ (words.length = 10 ∧ (∀ w ∈ words, validWordPattern w = true)
          ∧ words.Nodup))
    ∧ ((∃ st', startSession st new now = .ok st')
      ↔ (0 < new.total_words
          ∧ (new.game_mode = "custom" ∨ new.game_mode = "spaced-repetition")
          ∧ (new.language = "en" ∨ new.language = "fr" ∨ new.language = "de"))) := by
  refine ⟨validateCustomWords_ok_iff words, ?_⟩
  constructor
  · rintro ⟨st', h⟩
    unfold startSession at h
    by_cases hv : validate_session_checks new
    · unfold validate_session_checks at hv
      simp only [Bool.and_eq_true, Bool.or_eq_true, beq_iff_eq,
        decide_eq_true_eq] at hv
      exact ⟨hv.1.1, hv.1.2, or_assoc.mp hv.2⟩
    · rw [if_neg hv] at h
      exact Except.noConfusion h
  · rintro ⟨h1, h2, h3⟩
    have hv : validate_session_checks new = true := by
      unfold validate_session_checks
      simp only [Bool.and_eq_true, Bool.or_eq_true, beq_iff_eq,
        decide_eq_true_eq]
      exact ⟨⟨h1, h2⟩, or_assoc.mpr h3⟩
    exact ⟨_, by rw [startSession, if_pos hv]⟩

theorem custom_session_validation_witness :
    (validateCustomWords ["chat", "chien", "pomme", "terre", "mer", "ciel",
        "roi", "reine", "fleur", "lune"]
      = .ok ["chat", "chien", "pomme", "terre", "mer", "ciel",
        "roi", "reine", "fleur", "lune"]
      ↔ ((["chat", "chien", "pomme", "terre", "mer", "ciel",
          "roi", "reine", "fleur", "lune"] : List String).length = 10
          ∧ (∀ w ∈ (["chat", "chien", "pomme", "terre", "mer", "ciel",
              "roi", "reine", "fleur", "lune"] : List String),
              validWordPattern w = true)
          ∧ (["chat", "chien", "pomme", "terre", "mer", "ciel",
              "roi", "reine", "fleur", "lune"] : List String).Nodup))
    ∧ ((∃ st', startSession (DBState.mk [] []) sampleNewSession 5 = .ok st')
      ↔ (0 < sampleNewSession.total_words
          ∧ (sampleNewSession.game_mode = "custom"
              ∨ sampleNewSession.game_mode = "spaced-repetition")
          ∧ (sampleNewSession.language = "en" ∨ sampleNewSession.language = "fr"
              ∨ sampleNewSession.language = "de"))) :=
  custom_session_validation
    ["chat", "chien", "pomme", "terre", "mer", "ciel", "roi", "reine",
      "fleur", "lune"] (DBState.mk [] []) sampleNewSession 5

end Spellbot
